import Mathlib

/-!
Verification of the LP^MLN rule transformer (src/transformer.py).

The transformer rewrites weighted LP^MLN rules into plain ASP rules with
weak constraints.  This file gives a shallow embedding of the clingo AST
fragment the transformer manipulates, of the transformer's visitor methods
(`visit_Variable`, `visit_TheoryAtom`, `visit_Rule`, the generic
child-visiting dispatch) and of its helpers (`_get_constraint_parameters`,
`_get_unsat_atoms`, `_convert_rule`), and proves the specified properties
about them.

Python raises exceptions for attribute errors, unparseable weight
expressions and out-of-range indexing; the embedding returns
`Except PyErr` in those places.  External collaborators that are not part
of the translated source (the P-log converter `plog.ConvertPlog`, the
weight-scaling function `utils.calculate_weight`, Python's `eval` on
numeric strings) are modelled at their interface, as the specification
describes them.
-/

namespace LPMLN

/-- Source locations are opaque tokens carried along by every clingo AST
node; the transformer only copies them, so a `Nat` stands in for them. -/
abbrev Loc := Nat

/-- Signs of clingo literals (`ast.Sign`).  The transformer uses only
`NoSign` and `Negation` (single negation as failure). -/
inductive Sign : Type where
  | NoSign : Sign
  | Negation : Sign
deriving DecidableEq, Repr

/-- Symbolic stand-in for the Python float values flowing through the
weight computation in `visit_TheoryAtom`.  Floating point is not modelled
exactly; the constructors record which arithmetic the code performed
(`log(...)`, `p / (1 - p)`), keeping distinct computations distinct. -/
inductive FloatV : Type where
  /-- an integer weight taken directly from `symbol.number` -/
  | int (n : Int) : FloatV
  /-- the value of `float(eval(s))` for a numeric-literal string `s` -/
  | parsed (s : String) : FloatV
  /-- `math.log` of a value -/
  | log (x : FloatV) : FloatV
  /-- division of two values -/
  | div (x y : FloatV) : FloatV
  /-- subtraction of two values -/
  | sub (x y : FloatV) : FloatV
deriving DecidableEq, Repr

/-- Clingo symbols as the transformer uses them: `Number(n)`,
`String(s)`, and the opaque result of the external weight-scaling
function (see `calculate_weight`). -/
inductive Symbol : Type where
  | num (n : Int) : Symbol
  | str (s : String) : Symbol
  /-- the opaque value returned by the external `utils.calculate_weight` -/
  | scaledWeight (raw : FloatV) (power_of_ten : Int) : Symbol
deriving DecidableEq, Repr

/-- Python exceptions the transformer can raise, as the caller observes
them.  `invalidWeightExpression` is the diagnostic described by the
specification's error-handling design; the code itself never constructs
it, which is material to claim C8. -/
inductive PyErr : Type where
  /-- clingo raises `RuntimeError` for a wrong attribute access such as
  `symbol.string` on a `Number` -/
  | runtimeError (msg : String) : PyErr
  /-- the exception escaping `float(eval(s))` when `s` is not a numeric
  expression (`SyntaxError`, `NameError`, `ValueError`) -/
  | evalError (s : String) : PyErr
  /-- `TypeError`: a handler invoked with a missing argument, or an AST
  constructor applied to a value of the wrong type -/
  | typeError (msg : String) : PyErr
  /-- `IndexError` from `arguments[0]` on an empty argument list, or
  `asp_rules[-1]` on an empty rule list -/
  | indexError (msg : String) : PyErr
  /-- `UnboundLocalError` from reading `weight` when no recognized
  annotation name assigned it -/
  | unboundLocal (msg : String) : PyErr
  /-- an "invalid weight expression" error identifying the offending rule
  and annotation (named by the spec; never raised by the code) -/
  | invalidWeightExpression (rule : String) (ann : String) : PyErr
deriving DecidableEq, Repr

/-- Does the error identify itself as an "invalid weight expression"
diagnostic carrying the rule and the annotation? -/
def PyErr.isInvalidWeightExpr : PyErr → Bool
  | .invalidWeightExpression _ _ => true
  | _ => false

/-- The clingo AST fragment the transformer constructs and inspects.
Clingo's AST is dynamically typed, so a single inductive covers terms,
atoms, literals, heads and rules; field names and orders follow the
clingo constructors. -/
inductive AST : Type where
  | Variable (location : Loc) (name : String) : AST
  | SymbolicTerm (location : Loc) (symbol : Symbol) : AST
  | Function (location : Loc) (name : String) (arguments : List AST) (external : Bool) : AST
  /-- a bare `Symbol` placed into an AST argument list.  `_get_unsat_atoms`
  puts `self.weight` — still a raw clingo `Symbol` for soft rules — into
  the `unsat` function's Python argument list without wrapping it. -/
  | RawSymbol (symbol : Symbol) : AST
  | SymbolicAtom (symbol : AST) : AST
  | BooleanConstant (value : Bool) : AST
  | Literal (location : Loc) (sign : Sign) (atom : AST) : AST
  | AggregateGuard (comparison : Int) (term : AST) : AST
  | Aggregate (location : Loc) (left_guard : Option AST) (elements : List AST)
      (right_guard : Option AST) : AST
  | ConditionalLiteral (location : Loc) (literal : AST) (condition : List AST) : AST
  | TheoryAtom (location : Loc) (term : AST) (elements : List AST) (guard : Option AST) : AST
  | Rule (location : Loc) (head : AST) (body : List AST) : AST
  | Minimize (location : Loc) (weight : AST) (priority : AST) (terms : List AST)
      (body : List AST) : AST
deriving Repr

mutual

/-- Structural equality of AST nodes, matching clingo's value-based
`__eq__` used by Python's `in` test in `visit_Variable`. -/
def AST.beq : AST → AST → Bool
  | .Variable l n, .Variable l' n' => l == l' && n == n'
  | .SymbolicTerm l s, .SymbolicTerm l' s' => l == l' && s == s'
  | .Function l n a e, .Function l' n' a' e' =>
      l == l' && n == n' && AST.beqList a a' && e == e'
  | .RawSymbol s, .RawSymbol s' => s == s'
  | .SymbolicAtom t, .SymbolicAtom t' => AST.beq t t'
  | .BooleanConstant v, .BooleanConstant v' => v == v'
  | .Literal l s a, .Literal l' s' a' => l == l' && s == s' && AST.beq a a'
  | .AggregateGuard c t, .AggregateGuard c' t' => c == c' && AST.beq t t'
  | .Aggregate l lg el rg, .Aggregate l' lg' el' rg' =>
      l == l' && AST.beqOpt lg lg' && AST.beqList el el' && AST.beqOpt rg rg'
  | .ConditionalLiteral l t c, .ConditionalLiteral l' t' c' =>
      l == l' && AST.beq t t' && AST.beqList c c'
  | .TheoryAtom l t el g, .TheoryAtom l' t' el' g' =>
      l == l' && AST.beq t t' && AST.beqList el el' && AST.beqOpt g g'
  | .Rule l h b, .Rule l' h' b' => l == l' && AST.beq h h' && AST.beqList b b'
  | .Minimize l w p t b, .Minimize l' w' p' t' b' =>
      l == l' && AST.beq w w' && AST.beq p p' && AST.beqList t t' && AST.beqList b b'
  | _, _ => false

/-- Elementwise `AST.beq` on lists of nodes. -/
def AST.beqList : List AST → List AST → Bool
  | [], [] => true
  | x :: xs, y :: ys => AST.beq x y && AST.beqList xs ys
  | _, _ => false

/-- `AST.beq` lifted to optional nodes. -/
def AST.beqOpt : Option AST → Option AST → Bool
  | none, none => true
  | some x, some y => AST.beq x y
  | _, _ => false

end

set_option maxHeartbeats 1600000 in
mutual

theorem AST.beq_iff : ∀ a b : AST, AST.beq a b = true ↔ a = b
  | .Variable l n, b => by
      cases b <;> simp [AST.beq]
  | .SymbolicTerm l s, b => by
      cases b <;> simp [AST.beq]
  | .Function l n a e, b => by
      cases b <;> simp [AST.beq, AST.beq_iff_list a, and_assoc]
  | .RawSymbol s, b => by
      cases b <;> simp [AST.beq]
  | .SymbolicAtom t, b => by
      cases b <;> simp [AST.beq, AST.beq_iff t]
  | .BooleanConstant v, b => by
      cases b <;> simp [AST.beq]
  | .Literal l s a, b => by
      cases b <;> simp [AST.beq, AST.beq_iff a, and_assoc]
  | .AggregateGuard c t, b => by
      cases b <;> simp [AST.beq, AST.beq_iff t]
  | .Aggregate l lg el rg, b => by
      cases b <;>
        simp [AST.beq, AST.beq_iff_list el, AST.beq_iff_opt lg, AST.beq_iff_opt rg, and_assoc]
  | .ConditionalLiteral l t c, b => by
      cases b <;> simp [AST.beq, AST.beq_iff t, AST.beq_iff_list c, and_assoc]
  | .TheoryAtom l t el g, b => by
      cases b <;>
        simp [AST.beq, AST.beq_iff t, AST.beq_iff_list el, AST.beq_iff_opt g, and_assoc]
  | .Rule l h bd, b => by
      cases b <;> simp [AST.beq, AST.beq_iff h, AST.beq_iff_list bd, and_assoc]
  | .Minimize l w p t bd, b => by
      cases b <;>
        simp [AST.beq, AST.beq_iff w, AST.beq_iff p, AST.beq_iff_list t,
          AST.beq_iff_list bd, and_assoc]

theorem AST.beq_iff_list : ∀ a b : List AST, AST.beqList a b = true ↔ a = b
  | [], b => by cases b <;> simp [AST.beqList]
  | x :: xs, b => by
      cases b <;> simp [AST.beqList, AST.beq_iff x, AST.beq_iff_list xs]

theorem AST.beq_iff_opt : ∀ a b : Option AST, AST.beqOpt a b = true ↔ a = b
  | none, b => by cases b <;> simp [AST.beqOpt]
  | some x, b => by cases b <;> simp [AST.beqOpt, AST.beq_iff x]

end

instance : DecidableEq AST := fun a b =>
  decidable_of_iff (AST.beq a b = true) (AST.beq_iff a b)

mutual

/-- The node with every source location replaced by `0`.  Clingo compares
AST nodes by content, ignoring locations; two nodes are Python-equal
exactly when their stripped forms coincide. -/
def AST.stripLoc : AST → AST
  | .Variable _ name => .Variable 0 name
  | .SymbolicTerm _ symbol => .SymbolicTerm 0 symbol
  | .Function _ name arguments external =>
      .Function 0 name (AST.stripLocList arguments) external
  | .RawSymbol symbol => .RawSymbol symbol
  | .SymbolicAtom symbol => .SymbolicAtom (AST.stripLoc symbol)
  | .BooleanConstant value => .BooleanConstant value
  | .Literal _ sign atom => .Literal 0 sign (AST.stripLoc atom)
  | .AggregateGuard comparison term => .AggregateGuard comparison (AST.stripLoc term)
  | .Aggregate _ left_guard elements right_guard =>
      .Aggregate 0 (AST.stripLocOpt left_guard) (AST.stripLocList elements)
        (AST.stripLocOpt right_guard)
  | .ConditionalLiteral _ literal condition =>
      .ConditionalLiteral 0 (AST.stripLoc literal) (AST.stripLocList condition)
  | .TheoryAtom _ term elements guard =>
      .TheoryAtom 0 (AST.stripLoc term) (AST.stripLocList elements) (AST.stripLocOpt guard)
  | .Rule _ head body => .Rule 0 (AST.stripLoc head) (AST.stripLocList body)
  | .Minimize _ weight priority terms body =>
      .Minimize 0 (AST.stripLoc weight) (AST.stripLoc priority) (AST.stripLocList terms)
        (AST.stripLocList body)

/-- `AST.stripLoc` over a sequence of nodes. -/
def AST.stripLocList : List AST → List AST
  | [] => []
  | x :: xs => AST.stripLoc x :: AST.stripLocList xs

/-- `AST.stripLoc` over an optional node. -/
def AST.stripLocOpt : Option AST → Option AST
  | none => none
  | some t => some (AST.stripLoc t)

end

/-- Python equality of clingo AST nodes (`__eq__`): content comparison
that ignores source locations. -/
def AST.pyEq (a b : AST) : Bool :=
  AST.stripLoc a == AST.stripLoc b

end LPMLN

deriving instance DecidableEq for Except

namespace LPMLN

mutual

/-- Python's `str(...)` rendering of the term fragment, as far as the
transformer consults it: `visit_TheoryAtom` compares `str(args[1])`
with `"false"` and `_convert_rule` compares `str(priority)` with `"0"`.
Clingo prints a variable as its name, a number as its digits, a string
symbol with surrounding quotes, and a function as `name(arg,...,arg)`
(prefixed by `@` when external).  Node kinds the transformer never
renders are mapped to an empty string. -/
def AST.toStr : AST → String
  | .Variable _ name => name
  | .SymbolicTerm _ (.num n) => toString n
  | .SymbolicTerm _ (.str s) => "\"" ++ s ++ "\""
  | .SymbolicTerm _ (.scaledWeight _ _) => "<scaled-weight>"
  | .Function _ name [] external => (if external then "@" else "") ++ name
  | .Function _ name (a :: args) external =>
      (if external then "@" else "") ++ name ++ "(" ++ AST.toStrList (a :: args) ++ ")"
  | _ => ""

/-- Comma-separated rendering of argument lists for `AST.toStr`. -/
def AST.toStrList : List AST → String
  | [] => ""
  | [x] => AST.toStr x
  | x :: y :: xs => AST.toStr x ++ "," ++ AST.toStrList (y :: xs)

end

/-- The `location` attribute of a node; clingo raises for node kinds that
carry none (`SymbolicAtom`, `BooleanConstant`, guards, bare symbols). -/
def AST.location? : AST → Option Loc
  | .Variable l _ => some l
  | .SymbolicTerm l _ => some l
  | .Function l _ _ _ => some l
  | .Literal l _ _ => some l
  | .Aggregate l _ _ _ => some l
  | .ConditionalLiteral l _ _ => some l
  | .TheoryAtom l _ _ _ => some l
  | .Rule l _ _ => some l
  | .Minimize l _ _ _ _ => some l
  | .RawSymbol _ => none
  | .SymbolicAtom _ => none
  | .BooleanConstant _ => none
  | .AggregateGuard _ _ => none

/-- The test `str(head.ast_type) == 'ASTType.TheoryAtom'`. -/
def AST.isTheoryAtomType : AST → Bool
  | .TheoryAtom _ _ _ _ => true
  | _ => false

/-- Digits only. -/
def allDigits : List Char → Bool
  | [] => true
  | c :: cs => c.isDigit && allDigits cs

/-- Digits, then optionally one decimal point followed by digits. -/
def digitsThenFrac : List Char → Bool
  | [] => true
  | '.' :: cs => allDigits cs
  | c :: cs => c.isDigit && digitsThenFrac cs

/-- Modelled from the spec: whether `float(eval(s))` succeeds on the
string of a weight annotation.  Python's `eval` is an external general
evaluator; the design restricts it to numeric-literal strings (an
optional minus sign, digits, one optional decimal point), so this
predicate accepts exactly those.  A string it rejects is one on which
the evaluation raises, modelled as `PyErr.evalError`. -/
def numericExprOk (s : String) : Bool :=
  let cs := match s.data with
    | '-' :: rest => rest
    | cs => cs
  match cs with
  | [] => false
  | '.' :: rest => !rest.isEmpty && allDigits rest
  | c :: rest => c.isDigit && digitsThenFrac rest

/-- Modelled from the spec: `utils.calculate_weight` is repository code
outside `src/`, specified only as a pure scaling function
`scaleWeight(raw, exponent) -> Weight` applied to every computed weight
before it is stored.  It is embedded as the opaque, injective clingo
symbol `Symbol.scaledWeight raw power_of_ten`. -/
def calculate_weight (raw : FloatV) (power_of_ten : Int) : Symbol :=
  Symbol.scaledWeight raw power_of_ten

/-- The translation-mode options read from `options` in `__init__`. -/
structure Mode : Type where
  translate_hr : Bool
  use_unsat : Bool
  two_solve_calls : Bool
  power_of_ten : Int
deriving DecidableEq, Repr

/-- The dynamically-typed values `self.weight` takes before
`_get_constraint_parameters` runs: the sentinel string `'alpha'` set at
rule entry, the empty string `''` set at each theory-atom visit, or the
clingo symbol produced by `calculate_weight`. -/
inductive WeightVal : Type where
  | alpha : WeightVal
  | empty : WeightVal
  | sym (s : Symbol) : WeightVal
deriving DecidableEq, Repr

/-- The transformer's per-rule scratch state (`self.weight`,
`self.theory_type`, `self.global_variables`), reset at the start of
`visit_Rule`. -/
structure Scratch : Type where
  weight : WeightVal
  theory_type : String
  global_variables : List AST
deriving DecidableEq, Repr

/-- The scratch values `visit_Rule` installs before traversing a rule. -/
def initial_scratch : Scratch :=
  { weight := .alpha, theory_type := "", global_variables := [] }

/-- The P-log converter (`plog.ConvertPlog`), repository code outside
`src/`, consumed at its interface: `convert_random(head, body)`,
`convert_pr(head, body)` and `convert_obs_do(head)` each return a list
of rules.  Theorems quantify over it. -/
structure Externals : Type where
  convert_random : AST → List AST → List AST
  convert_pr : AST → List AST → List AST
  convert_obs_do : AST → List AST

/-- Handler for variable nodes: append the variable to
`self.global_variables` unless a Python-equal node (same content, any
location) is already present, and return the node unchanged. -/
def visit_Variable (sc : Scratch) (var : AST) : Scratch × AST :=
  if sc.global_variables.any (fun g => AST.pyEq g var) then (sc, var)
  else ({ sc with global_variables := sc.global_variables ++ [var] }, var)

/-- Handler for theory atoms: record the theory type for the recognized
annotation names, build the evidence literal for `evidence`, and extract
the weight for any other name (`weight`, `log`, `problog`; an
unrecognized name leaves the local `weight` unbound and raises).  The
handler first resets `self.weight` to the empty string. -/
def visit_TheoryAtom (mode : Mode) (sc : Scratch) (atom : AST) :
    Except PyErr (Scratch × AST) :=
  match atom with
  | .TheoryAtom location term elements guard =>
    let sc := { sc with weight := WeightVal.empty }
    match term with
    | .Function _ name args _ =>
      if name = "query" ∨ name = "random" ∨ name = "pr" ∨ name = "obs" ∨ name = "do" then
        .ok ({ sc with theory_type := name }, .TheoryAtom location term elements guard)
      else if name = "evidence" then
        let sc := { sc with theory_type := name }
        match args with
        | [] => .error (.indexError "arguments[0]")
        | evidence :: rest =>
          let sign : Sign :=
            match rest with
            | [] => Sign.Negation
            | arg2 :: _ => if AST.toStr arg2 = "false" then Sign.NoSign else Sign.Negation
          .ok (sc, .Literal location sign (.SymbolicAtom evidence))
      else
        match args with
        | [] => .error (.indexError "arguments[0]")
        | arg0 :: _ =>
          match arg0 with
          | .SymbolicTerm _ symbol =>
            match
              (if name = "weight" then
                match symbol with
                | .num n => Except.ok (FloatV.int n)
                | .str s =>
                    if numericExprOk s then Except.ok (FloatV.parsed s)
                    else Except.error (PyErr.evalError s)
                | .scaledWeight _ _ => Except.error (PyErr.runtimeError "symbol.string")
              else if name = "log" then
                match symbol with
                | .str s =>
                    if numericExprOk s then Except.ok (FloatV.log (.parsed s))
                    else Except.error (PyErr.evalError s)
                | _ => Except.error (PyErr.runtimeError "symbol.string")
              else if name = "problog" then
                match symbol with
                | .str s =>
                    if numericExprOk s then
                      Except.ok (FloatV.log (.div (.parsed s) (.sub (.int 1) (.parsed s))))
                    else Except.error (PyErr.evalError s)
                | _ => Except.error (PyErr.runtimeError "symbol.string")
              else Except.error (PyErr.unboundLocal "weight")) with
            | .error e => .error e
            | .ok w =>
                .ok ({ sc with weight := .sym (calculate_weight w mode.power_of_ten) },
                  .BooleanConstant true)
          | _ => .error (.runtimeError "symbol")
    | _ => .error (.runtimeError "term.name")
  | _ => .error (.typeError "visit_TheoryAtom expects a TheoryAtom")

/-- What `_get_constraint_parameters` returns plus the two scratch fields
it overwrites: `idx`, `constraint_weight` and `priority` are its return
values; `weight` is the value `self.weight` holds afterwards (used by
`_get_unsat_atoms`); `global_variables` is the collapsed function term
stored back into `self.global_variables`. -/
structure ConstraintParams : Type where
  idx : AST
  constraint_weight : AST
  priority : AST
  weight : AST
  global_variables : AST
deriving DecidableEq, Repr

/-- Embedding of `_get_constraint_parameters`: build the index term and
the collapsed global-variable term, then branch on the recorded weight —
the sentinel `'alpha'` gives the symbolic weight `String('alpha')`,
constraint weight `Number(1)` and priority `Number(1)`; a recorded
numeric weight gives itself as constraint weight and priority
`Number(0)`.  The empty-string weight never reaches this function from
`visit_Rule`; Python would raise a `TypeError` building
`SymbolicTerm(location, '')`. -/
def get_constraint_parameters (location : Loc) (rule_idx : Nat) (weight : WeightVal)
    (global_variables : List AST) : Except PyErr ConstraintParams :=
  let idx := AST.SymbolicTerm location (.num rule_idx)
  let gvars := AST.Function location "" global_variables false
  match weight with
  | .alpha =>
      .ok { idx := idx
            constraint_weight := .SymbolicTerm location (.num 1)
            priority := .SymbolicTerm location (.num 1)
            weight := .SymbolicTerm location (.str "alpha")
            global_variables := gvars }
  | .sym s =>
      .ok { idx := idx
            constraint_weight := .SymbolicTerm location s
            priority := .SymbolicTerm location (.num 0)
            weight := .RawSymbol s
            global_variables := gvars }
  | .empty => .error (.typeError "SymbolicTerm expects a Symbol")

/-- Embedding of `_get_unsat_atoms`: the positive and negated literals
over `unsat(idx, weight, global_variables)`, returned in that order. -/
def get_unsat_atoms (location : Loc) (idx weight global_variables : AST) : AST × AST :=
  let unsat_arguments := [idx, weight, global_variables]
  let unsatAtom := AST.SymbolicAtom (.Function location "unsat" unsat_arguments false)
  (AST.Literal location Sign.NoSign unsatAtom, AST.Literal location Sign.Negation unsatAtom)

/-- Embedding of `_convert_rule`.  An aggregate head without guards short-
circuits to the unchanged rule; otherwise `not_head` negates the whole
aggregate (guarded aggregate head) or the head's atom (literal head),
and the unsat-atom or the compact encoding produces the rule list.  The
mutations the Python code performs on its `body` list are rendered by
constructing each rule from the list value current at that point. -/
def convert_rule (mode : Mode) (rule_idx : Nat) (weight : WeightVal)
    (global_variables : List AST) (head : AST) (body : List AST) :
    Except PyErr (List AST) :=
  match AST.location? head with
  | none => .error (.runtimeError "head.location")
  | some loc =>
    match get_constraint_parameters loc rule_idx weight global_variables with
    | .error e => .error e
    | .ok cp =>
      match head with
      | .Aggregate _ none _ none => .ok [.Rule loc head body]
      | _ =>
        match (match head with
               | .Aggregate _ _ _ _ => Except.ok (AST.Literal loc Sign.Negation head)
               | .Literal _ _ atom => Except.ok (AST.Literal loc Sign.Negation atom)
               | _ => Except.error (PyErr.runtimeError "head.atom")) with
        | .error e => .error e
        | .ok not_head =>
          if mode.use_unsat then
            let (unsat, not_unsat) :=
              get_unsat_atoms loc cp.idx cp.weight cp.global_variables
            let asp_rule1 := AST.Rule loc unsat (not_head :: body)
            let asp_rule2 := AST.Rule loc head (not_unsat :: body)
            let asp_rule3 := AST.Minimize loc cp.constraint_weight cp.priority
              [cp.idx, cp.global_variables] [unsat]
            .ok [asp_rule1, asp_rule2, asp_rule3]
          else
            let (asp_rules, body2) :=
              match head with
              | .Aggregate _ _ elems _ =>
                  ([AST.Rule loc (.Aggregate loc none elems none) body], not_head :: body)
              | .Literal _ _ (.BooleanConstant false) => ([], body)
              | _ =>
                  let cond_head := AST.ConditionalLiteral loc head []
                  let choice_head := AST.Aggregate loc none [cond_head] none
                  ([AST.Rule loc choice_head body], not_head :: body)
            let body3 :=
              if mode.two_solve_calls ∧ AST.toStr cp.priority = "0" then
                AST.Literal loc Sign.NoSign
                  (.SymbolicAtom (.Function loc "ext_helper" [] false)) :: body2
              else body2
            let weak_constraint := AST.Minimize loc cp.constraint_weight cp.priority
              [cp.idx, cp.global_variables] body3
            .ok (asp_rules ++ [weak_constraint])

mutual

/-- The generic `visit` dispatch as it runs inside a rule's head/body
traversal: `Variable` and `TheoryAtom` nodes go to their handlers;
every other node kind is rebuilt with its visited children (`update` /
`visit_children`), visited in clingo's attribute order.  A nested
`Rule` or `Minimize` would dispatch to a handler that requires the
program-builder argument the inner call does not pass, raising a
`TypeError`; neither occurs inside a head or body. -/
def visitAST (mode : Mode) (sc : Scratch) (t : AST) : Except PyErr (Scratch × AST) :=
  match t with
  | .Variable location name => .ok (visit_Variable sc (.Variable location name))
  | .TheoryAtom location term elements guard =>
      visit_TheoryAtom mode sc (.TheoryAtom location term elements guard)
  | .SymbolicTerm location symbol => .ok (sc, .SymbolicTerm location symbol)
  | .RawSymbol symbol => .ok (sc, .RawSymbol symbol)
  | .BooleanConstant value => .ok (sc, .BooleanConstant value)
  | .SymbolicAtom symbol =>
      match visitAST mode sc symbol with
      | .error e => .error e
      | .ok (sc, symbol') => .ok (sc, .SymbolicAtom symbol')
  | .Literal location sign atom =>
      match visitAST mode sc atom with
      | .error e => .error e
      | .ok (sc, atom') => .ok (sc, .Literal location sign atom')
  | .AggregateGuard comparison term =>
      match visitAST mode sc term with
      | .error e => .error e
      | .ok (sc, term') => .ok (sc, .AggregateGuard comparison term')
  | .Aggregate location left_guard elements right_guard =>
      match visitOpt mode sc left_guard with
      | .error e => .error e
      | .ok (sc, left_guard') =>
        match visitList mode sc elements with
        | .error e => .error e
        | .ok (sc, elements') =>
          match visitOpt mode sc right_guard with
          | .error e => .error e
          | .ok (sc, right_guard') =>
              .ok (sc, .Aggregate location left_guard' elements' right_guard')
  | .ConditionalLiteral location literal condition =>
      match visitAST mode sc literal with
      | .error e => .error e
      | .ok (sc, literal') =>
        match visitList mode sc condition with
        | .error e => .error e
        | .ok (sc, condition') => .ok (sc, .ConditionalLiteral location literal' condition')
  | .Function location name arguments external =>
      match visitList mode sc arguments with
      | .error e => .error e
      | .ok (sc, arguments') => .ok (sc, .Function location name arguments' external)
  | .Rule _ _ _ => .error (.typeError "visit_Rule called without a builder")
  | .Minimize _ _ _ _ _ => .error (.typeError "visit_Minimize called without a builder")
termination_by structural t

/-- `visit_sequence`: visit the elements of an `ASTSequence` in order,
threading the scratch state. -/
def visitList (mode : Mode) (sc : Scratch) (ts : List AST) :
    Except PyErr (Scratch × List AST) :=
  match ts with
  | [] => .ok (sc, [])
  | x :: xs =>
      match visitAST mode sc x with
      | .error e => .error e
      | .ok (sc, x') =>
        match visitList mode sc xs with
        | .error e => .error e
        | .ok (sc, xs') => .ok (sc, x' :: xs')
termination_by structural ts

/-- Optional children (aggregate guards): `None` stays untouched,
a present child is visited. -/
def visitOpt (mode : Mode) (sc : Scratch) (t? : Option AST) :
    Except PyErr (Scratch × Option AST) :=
  match t? with
  | none => .ok (sc, none)
  | some t =>
      match visitAST mode sc t with
      | .error e => .error e
      | .ok (sc, t') => .ok (sc, some t')
termination_by structural t?

end

/-- What one `visit_Rule` call produces: the rule-index counter after the
call, the rules pushed into the program builder (in order), and the node
returned to the generic dispatcher. -/
structure VisitRuleOut : Type where
  rule_idx : Nat
  added : List AST
  result : AST
deriving DecidableEq, Repr

/-- Embedding of `visit_Rule`: reset the scratch state, return facts
unchanged, traverse head then body, then branch on the recorded theory
type and weight; of the resulting rule list all but the last are pushed
into the builder and the last is returned.  The P-log converter is the
external `plog` parameter. -/
def visit_Rule (mode : Mode) (plog : Externals) (rule_idx : Nat) (rule : AST) :
    Except PyErr VisitRuleOut :=
  match rule with
  | .Rule location head body =>
    let sc := initial_scratch
    if AST.isTheoryAtomType head = false ∧ body = [] then
      .ok { rule_idx := rule_idx, added := [], result := .Rule location head body }
    else
      match visitAST mode sc head with
      | .error e => .error e
      | .ok (sc, head') =>
        match visitList mode sc body with
        | .error e => .error e
        | .ok (sc, body') =>
          if sc.theory_type = "query" then
            .ok { rule_idx := rule_idx, added := [], result := .Rule location head body }
          else if sc.theory_type = "evidence" then
            match AST.location? head' with
            | none => .error (.runtimeError "head.location")
            | some hloc =>
                .ok { rule_idx := rule_idx, added := []
                      result := .Rule location
                        (.Literal hloc Sign.NoSign (.BooleanConstant false)) [head'] }
          else if sc.theory_type = "random" ∨ sc.theory_type = "pr" then
            let asp_rules :=
              if sc.theory_type = "random" then plog.convert_random head' body'
              else plog.convert_pr head' body'
            match asp_rules.getLast? with
            | none => .error (.indexError "asp_rules[-1]")
            | some last =>
                .ok { rule_idx := rule_idx, added := asp_rules.dropLast, result := last }
          else if sc.theory_type = "obs" ∨ sc.theory_type = "do" then
            let asp_rules := plog.convert_obs_do head'
            match asp_rules.getLast? with
            | none => .error (.indexError "asp_rules[-1]")
            | some last =>
                .ok { rule_idx := rule_idx, added := asp_rules.dropLast, result := last }
          else if sc.weight = WeightVal.alpha ∧ mode.translate_hr = false then
            .ok { rule_idx := rule_idx + 1, added := [], result := .Rule location head body }
          else
            match convert_rule mode rule_idx sc.weight sc.global_variables head' body' with
            | .error e => .error e
            | .ok asp_rules =>
              match asp_rules.getLast? with
              | none => .error (.indexError "asp_rules[-1]")
              | some last =>
                  .ok { rule_idx := rule_idx + 1, added := asp_rules.dropLast, result := last }
  | _ => .error (.typeError "visit_Rule expects a Rule")

mutual

/-- The variable nodes the generic traversal encounters in a node, in
encounter order and with repetitions.  A `TheoryAtom` contributes none:
its handler intercepts the dispatch before any child is visited. -/
def varsOf : AST → List AST
  | .Variable location name => [.Variable location name]
  | .SymbolicTerm _ _ => []
  | .RawSymbol _ => []
  | .BooleanConstant _ => []
  | .SymbolicAtom symbol => varsOf symbol
  | .Literal _ _ atom => varsOf atom
  | .AggregateGuard _ term => varsOf term
  | .Aggregate _ left_guard elements right_guard =>
      varsOfOpt left_guard ++ varsOfList elements ++ varsOfOpt right_guard
  | .ConditionalLiteral _ literal condition => varsOf literal ++ varsOfList condition
  | .Function _ _ arguments _ => varsOfList arguments
  | .TheoryAtom _ _ _ _ => []
  | .Rule _ _ _ => []
  | .Minimize _ _ _ _ _ => []

/-- `varsOf` over a sequence of nodes. -/
def varsOfList : List AST → List AST
  | [] => []
  | x :: xs => varsOf x ++ varsOfList xs

/-- `varsOf` over an optional node. -/
def varsOfOpt : Option AST → List AST
  | none => []
  | some t => varsOf t

end

/-- First-occurrence deduplication with respect to Python equality: keep
each node's first occurrence, drop every later Python-equal one. -/
def dedupKeepFirst : List AST → List AST
  | [] => []
  | x :: xs => x :: (dedupKeepFirst xs).filter (fun y => !AST.pyEq y x)

/-- Appending every element of `l` whose content is not yet present, in
order — the accumulation `visit_Variable` performs across a traversal. -/
def insertNew (acc : List AST) (l : List AST) : List AST :=
  l.foldl (fun acc v => if acc.any (fun g => AST.pyEq g v) then acc else acc ++ [v]) acc

mutual

/-- Does a node contain a `TheoryAtom` anywhere the generic traversal
would reach it? -/
def hasTheoryAtom : AST → Bool
  | .Variable _ _ => false
  | .SymbolicTerm _ _ => false
  | .RawSymbol _ => false
  | .BooleanConstant _ => false
  | .SymbolicAtom symbol => hasTheoryAtom symbol
  | .Literal _ _ atom => hasTheoryAtom atom
  | .AggregateGuard _ term => hasTheoryAtom term
  | .Aggregate _ left_guard elements right_guard =>
      hasTheoryAtomOpt left_guard || hasTheoryAtomList elements ||
        hasTheoryAtomOpt right_guard
  | .ConditionalLiteral _ literal condition =>
      hasTheoryAtom literal || hasTheoryAtomList condition
  | .Function _ _ arguments _ => hasTheoryAtomList arguments
  | .TheoryAtom _ _ _ _ => true
  | .Rule _ _ _ => false
  | .Minimize _ _ _ _ _ => false

/-- `hasTheoryAtom` over a sequence of nodes. -/
def hasTheoryAtomList : List AST → Bool
  | [] => false
  | x :: xs => hasTheoryAtom x || hasTheoryAtomList xs

/-- `hasTheoryAtom` over an optional node. -/
def hasTheoryAtomOpt : Option AST → Bool
  | none => false
  | some t => hasTheoryAtom t

end

/-- Is this node the `ext_helper` sentinel literal the compact encoding
prepends in two-solve-call mode (at any location)? -/
def isExtHelperLit : AST → Bool
  | .Literal _ Sign.NoSign (.SymbolicAtom (.Function _ "ext_helper" [] false)) => true
  | _ => false

/-- The body of a rule or weak constraint (empty for other nodes). -/
def AST.bodyOf : AST → List AST
  | .Rule _ _ body => body
  | .Minimize _ _ _ _ body => body
  | _ => []

/-- A concrete instantiation of the P-log interface, used only to
evaluate witnesses on branches that never reach it. -/
def plog0 : Externals :=
  { convert_random := fun h b => [.Rule 0 h b]
    convert_pr := fun h b => [.Rule 0 h b]
    convert_obs_do := fun h => [.Rule 0 h []] }

/-!  Claim theorems. -/

/-- C3: for every rule reaching the weighted-rule encoder, the constraint
parameters are determined by the recorded weight: the sentinel `alpha`
gives the symbolic weight string `"alpha"`, constraint weight `1` and
priority `1`; a recorded numeric weight gives itself as constraint
weight and priority `0`; `1 > 0`, so hard rules are penalized at a
strictly higher priority level than soft rules. -/
theorem get_constraint_parameters_spec :
    ∀ (location : Loc) (rule_idx : Nat) (gvars : List AST),
      (get_constraint_parameters location rule_idx .alpha gvars =
        .ok { idx := .SymbolicTerm location (.num rule_idx)
              constraint_weight := .SymbolicTerm location (.num 1)
              priority := .SymbolicTerm location (.num 1)
              weight := .SymbolicTerm location (.str "alpha")
              global_variables := .Function location "" gvars false }) ∧
      (∀ s : Symbol,
        get_constraint_parameters location rule_idx (.sym s) gvars =
          .ok { idx := .SymbolicTerm location (.num rule_idx)
                constraint_weight := .SymbolicTerm location s
                priority := .SymbolicTerm location (.num 0)
                weight := .RawSymbol s
                global_variables := .Function location "" gvars false }) ∧
      (1 : Int) > 0 :=
  fun _ _ _ => ⟨rfl, fun _ => rfl, by norm_num⟩

/-- C1: with the unsat-atom encoding enabled, `_convert_rule` returns
exactly three rules in order — `unsat :- notHead, Body`, then
`Head :- not unsat, Body`, then the weak constraint minimizing the
constraint weight at the computed priority keyed by
`(index, globalsTerm)` over the unsat literal — both for a literal head
(negating the head's atom) and for a guarded aggregate head (negating
the whole aggregate). -/
theorem convert_rule_unsat_spec (mode : Mode) (rule_idx : Nat) (w : WeightVal)
    (gvars : List AST) (loc : Loc) (cp : ConstraintParams)
    (h_unsat : mode.use_unsat = true)
    (hcp : get_constraint_parameters loc rule_idx w gvars = .ok cp) :
    (∀ (sgn : Sign) (atom : AST) (body : List AST),
      convert_rule mode rule_idx w gvars (.Literal loc sgn atom) body =
        .ok [.Rule loc (get_unsat_atoms loc cp.idx cp.weight cp.global_variables).1
               (.Literal loc .Negation atom :: body),
             .Rule loc (.Literal loc sgn atom)
               ((get_unsat_atoms loc cp.idx cp.weight cp.global_variables).2 :: body),
             .Minimize loc cp.constraint_weight cp.priority [cp.idx, cp.global_variables]
               [(get_unsat_atoms loc cp.idx cp.weight cp.global_variables).1]]) ∧
    (∀ (lg rg : Option AST) (elems : List AST) (body : List AST),
      lg.isSome ∨ rg.isSome →
      convert_rule mode rule_idx w gvars (.Aggregate loc lg elems rg) body =
        .ok [.Rule loc (get_unsat_atoms loc cp.idx cp.weight cp.global_variables).1
               (.Literal loc .Negation (.Aggregate loc lg elems rg) :: body),
             .Rule loc (.Aggregate loc lg elems rg)
               ((get_unsat_atoms loc cp.idx cp.weight cp.global_variables).2 :: body),
             .Minimize loc cp.constraint_weight cp.priority [cp.idx, cp.global_variables]
               [(get_unsat_atoms loc cp.idx cp.weight cp.global_variables).1]]) := by
  constructor
  · intro sgn atom body
    simp [convert_rule, AST.location?, hcp, h_unsat]
  · intro lg rg elems body hguard
    cases lg with
    | none =>
        cases rg with
        | none => simp at hguard
        | some g => simp [convert_rule, AST.location?, hcp, h_unsat]
    | some g =>
        cases rg <;> simp [convert_rule, AST.location?, hcp, h_unsat]

/-- Witness for C1: the soft rule `2 : a.` under the unsat encoding. -/
theorem convert_rule_unsat_spec_witness :
    convert_rule ⟨false, true, false, 0⟩ 0 (.sym (.num 2)) []
        (.Literal 1 .NoSign (.SymbolicAtom (.Function 1 "a" [] false))) [] =
      .ok [.Rule 1 (.Literal 1 .NoSign (.SymbolicAtom
              (.Function 1 "unsat" [.SymbolicTerm 1 (.num 0), .RawSymbol (.num 2),
                .Function 1 "" [] false] false)))
             [.Literal 1 .Negation (.SymbolicAtom (.Function 1 "a" [] false))],
           .Rule 1 (.Literal 1 .NoSign (.SymbolicAtom (.Function 1 "a" [] false)))
             [.Literal 1 .Negation (.SymbolicAtom
               (.Function 1 "unsat" [.SymbolicTerm 1 (.num 0), .RawSymbol (.num 2),
                 .Function 1 "" [] false] false))],
           .Minimize 1 (.SymbolicTerm 1 (.num 2)) (.SymbolicTerm 1 (.num 0))
             [.SymbolicTerm 1 (.num 0), .Function 1 "" [] false]
             [.Literal 1 .NoSign (.SymbolicAtom
               (.Function 1 "unsat" [.SymbolicTerm 1 (.num 0), .RawSymbol (.num 2),
                 .Function 1 "" [] false] false))]] :=
  (convert_rule_unsat_spec ⟨false, true, false, 0⟩ 0 (.sym (.num 2)) [] 1 _ rfl rfl).1
    .NoSign (.SymbolicAtom (.Function 1 "a" [] false)) []

/-- C2 (amended): with the compact encoding and two-solve-call mode
disabled (or a hard rule, whose priority is `1`), a plain-atom head
yields exactly the choice rule `{Head} :- Body` followed by the weak
constraint over `notHead :: Body`, and a boolean-false head yields
exactly the weak constraint over the unmodified body, keyed by
`(index, globalsTerm)`.  (With two-solve-call mode enabled and priority
`0` the code additionally prepends the `ext_helper` literal.) -/
theorem convert_rule_compact_spec (mode : Mode) (rule_idx : Nat) (w : WeightVal)
    (gvars : List AST) (loc : Loc) (cp : ConstraintParams)
    (h_compact : mode.use_unsat = false)
    (h_ts : mode.two_solve_calls = false ∨ w = .alpha)
    (hcp : get_constraint_parameters loc rule_idx w gvars = .ok cp) :
    (∀ (sgn : Sign) (t : AST) (body : List AST),
      convert_rule mode rule_idx w gvars (.Literal loc sgn (.SymbolicAtom t)) body =
        .ok [.Rule loc
               (.Aggregate loc none
                 [.ConditionalLiteral loc (.Literal loc sgn (.SymbolicAtom t)) []] none) body,
             .Minimize loc cp.constraint_weight cp.priority [cp.idx, cp.global_variables]
               (.Literal loc .Negation (.SymbolicAtom t) :: body)]) ∧
    (∀ (sgn : Sign) (body : List AST),
      convert_rule mode rule_idx w gvars (.Literal loc sgn (.BooleanConstant false)) body =
        .ok [.Minimize loc cp.constraint_weight cp.priority [cp.idx, cp.global_variables]
               body]) := by
  have hpr : ¬(mode.two_solve_calls = true ∧ AST.toStr cp.priority = "0") := by
    rcases h_ts with h | h
    · simp [h]
    · subst h
      simp [get_constraint_parameters] at hcp
      rw [← hcp]
      simp [AST.toStr]
      intro _
      decide
  constructor
  · intro sgn t body
    simp [convert_rule, AST.location?, hcp, h_compact, hpr]
  · intro sgn body
    simp [convert_rule, AST.location?, hcp, h_compact, hpr]

/-- Witness for C2: the soft rules `2 : a.` and `2 : #false :- b.` under
the compact encoding with two-solve-call mode off. -/
theorem convert_rule_compact_spec_witness :
    (convert_rule ⟨false, false, false, 0⟩ 0 (.sym (.num 2)) []
        (.Literal 1 .NoSign (.SymbolicAtom (.Function 1 "a" [] false))) [] =
      .ok [.Rule 1 (.Aggregate 1 none
             [.ConditionalLiteral 1
               (.Literal 1 .NoSign (.SymbolicAtom (.Function 1 "a" [] false))) []] none) [],
           .Minimize 1 (.SymbolicTerm 1 (.num 2)) (.SymbolicTerm 1 (.num 0))
             [.SymbolicTerm 1 (.num 0), .Function 1 "" [] false]
             [.Literal 1 .Negation (.SymbolicAtom (.Function 1 "a" [] false))]]) ∧
    (convert_rule ⟨false, false, false, 0⟩ 0 (.sym (.num 2)) []
        (.Literal 1 .NoSign (.BooleanConstant false))
        [.Literal 2 .NoSign (.SymbolicAtom (.Function 2 "b" [] false))] =
      .ok [.Minimize 1 (.SymbolicTerm 1 (.num 2)) (.SymbolicTerm 1 (.num 0))
             [.SymbolicTerm 1 (.num 0), .Function 1 "" [] false]
             [.Literal 2 .NoSign (.SymbolicAtom (.Function 2 "b" [] false))]]) :=
  ⟨(convert_rule_compact_spec ⟨false, false, false, 0⟩ 0 (.sym (.num 2)) [] 1 _ rfl
      (Or.inl rfl) rfl).1 .NoSign (.Function 1 "a" [] false) [],
   (convert_rule_compact_spec ⟨false, false, false, 0⟩ 0 (.sym (.num 2)) [] 1 _ rfl
      (Or.inl rfl) rfl).2 .NoSign
      [.Literal 2 .NoSign (.SymbolicAtom (.Function 2 "b" [] false))]⟩

/-- Counterexample for C2 as stated: with two-solve-call mode enabled and
a soft weight, the compact encoding prepends the `ext_helper` literal,
so the weak constraint's body is not the negated head prepended to the
original body. -/
theorem convert_rule_compact_cx :
    convert_rule ⟨false, false, true, 0⟩ 0 (.sym (.num 2)) []
        (.Literal 1 .NoSign (.SymbolicAtom (.Function 1 "a" [] false))) [] =
      .ok [.Rule 1 (.Aggregate 1 none
              [.ConditionalLiteral 1
                (.Literal 1 .NoSign (.SymbolicAtom (.Function 1 "a" [] false))) []] none) [],
           .Minimize 1 (.SymbolicTerm 1 (.num 2)) (.SymbolicTerm 1 (.num 0))
             [.SymbolicTerm 1 (.num 0), .Function 1 "" [] false]
             [.Literal 1 .NoSign (.SymbolicAtom (.Function 1 "ext_helper" [] false)),
              .Literal 1 .Negation (.SymbolicAtom (.Function 1 "a" [] false))]] ∧
    ([AST.Literal 1 .NoSign (.SymbolicAtom (.Function 1 "ext_helper" [] false)),
      .Literal 1 .Negation (.SymbolicAtom (.Function 1 "a" [] false))] ≠
     [AST.Literal 1 .Negation (.SymbolicAtom (.Function 1 "a" [] false))]) := by
  constructor
  · decide
  · decide

set_option maxHeartbeats 1600000 in
/-- C10: with the unsat-atom encoding enabled, the two-solve-calls flag
has no effect on `_convert_rule`'s output, and if the input body holds
no `ext_helper` literal, no emitted rule's body holds one either. -/
theorem convert_rule_unsat_mode_independent (mode : Mode) (ts : Bool) (rule_idx : Nat)
    (w : WeightVal) (gvars : List AST) (head : AST) (body : List AST)
    (h_unsat : mode.use_unsat = true) :
    convert_rule { mode with two_solve_calls := ts } rule_idx w gvars head body =
      convert_rule mode rule_idx w gvars head body ∧
    (∀ rules, convert_rule mode rule_idx w gvars head body = .ok rules →
      (∀ l ∈ body, isExtHelperLit l = false) →
      ∀ r ∈ rules, ∀ l ∈ AST.bodyOf r, isExtHelperLit l = false) := by
  constructor
  · simp [convert_rule, h_unsat]
  · cases w <;> cases head <;>
      first
        | (simp_all [convert_rule, AST.location?, get_constraint_parameters, get_unsat_atoms,
             isExtHelperLit, AST.bodyOf]
           done)
        | (rename_i loc lg el rg
           cases lg <;> cases rg <;>
             simp_all [convert_rule, AST.location?, get_constraint_parameters, get_unsat_atoms,
               isExtHelperLit, AST.bodyOf])

/-- visit_TheoryAtom preserves global_variables; its result weight is
never the alpha sentinel. -/
theorem visit_TheoryAtom_scratch (mode : Mode) (sc : Scratch) (a : AST)
    (sc' : Scratch) (t' : AST) (h : visit_TheoryAtom mode sc a = .ok (sc', t')) :
    sc'.global_variables = sc.global_variables ∧ sc'.weight ≠ WeightVal.alpha := by
  unfold visit_TheoryAtom at h
  repeat' split at h
  all_goals simp_all
  all_goals
    obtain ⟨h1, h2⟩ := h
    subst h1
    simp

mutual

theorem visit_scratch_spec : ∀ (mode : Mode) (sc : Scratch) (t : AST)
    (sc' : Scratch) (t' : AST), visitAST mode sc t = .ok (sc', t') →
    (sc'.global_variables = insertNew sc.global_variables (varsOf t)) ∧
    (sc'.weight = .alpha → sc.weight = .alpha ∧ sc'.theory_type = sc.theory_type) ∧
    (hasTheoryAtom t = false → sc'.weight = sc.weight)
  | mode, sc, .Variable loc n, sc', t', h => by
      rw [visitAST] at h
      unfold visit_Variable at h
      split at h
      · rename_i hmem
        simp only [Except.ok.injEq, Prod.mk.injEq] at h
        obtain ⟨rfl, rfl⟩ := h
        refine ⟨?_, fun ha => ⟨ha, rfl⟩, fun _ => rfl⟩
        simp only [insertNew, varsOf, List.foldl_cons, List.foldl_nil]
        rw [if_pos hmem]
      · rename_i hmem
        simp only [Except.ok.injEq, Prod.mk.injEq] at h
        obtain ⟨rfl, rfl⟩ := h
        refine ⟨?_, fun ha => ⟨ha, rfl⟩, fun _ => rfl⟩
        simp only [insertNew, varsOf, List.foldl_cons, List.foldl_nil]
        rw [if_neg hmem]
  | mode, sc, .SymbolicTerm loc s, sc', t', h => by
      rw [visitAST] at h
      simp only [Except.ok.injEq, Prod.mk.injEq] at h
      obtain ⟨rfl, rfl⟩ := h
      simp [insertNew, varsOf, hasTheoryAtom]
  | mode, sc, .RawSymbol s, sc', t', h => by
      rw [visitAST] at h
      simp only [Except.ok.injEq, Prod.mk.injEq] at h
      obtain ⟨rfl, rfl⟩ := h
      simp [insertNew, varsOf, hasTheoryAtom]
  | mode, sc, .BooleanConstant v, sc', t', h => by
      rw [visitAST] at h
      simp only [Except.ok.injEq, Prod.mk.injEq] at h
      obtain ⟨rfl, rfl⟩ := h
      simp [insertNew, varsOf, hasTheoryAtom]
  | mode, sc, .TheoryAtom loc term elems guard, sc', t', h => by
      rw [visitAST] at h
      have := visit_TheoryAtom_scratch mode _ _ _ _ h
      refine ⟨?_, ?_, ?_⟩
      · simp [varsOf, insertNew, this.1]
      · intro ha
        exact absurd ha this.2
      · intro hta
        simp [hasTheoryAtom] at hta
  | mode, sc, .SymbolicAtom s, sc', t', h => by
      rw [visitAST] at h
      split at h
      · exact absurd h (by simp)
      · rename_i sc2 s' heq
        simp only [Except.ok.injEq, Prod.mk.injEq] at h
        obtain ⟨rfl, rfl⟩ := h
        have := visit_scratch_spec mode sc s sc2 s' heq
        simpa [varsOf, hasTheoryAtom] using this
  | mode, sc, .Literal loc sgn atom, sc', t', h => by
      rw [visitAST] at h
      split at h
      · exact absurd h (by simp)
      · rename_i sc2 a' heq
        simp only [Except.ok.injEq, Prod.mk.injEq] at h
        obtain ⟨rfl, rfl⟩ := h
        have := visit_scratch_spec mode sc atom sc2 a' heq
        simpa [varsOf, hasTheoryAtom] using this
  | mode, sc, .AggregateGuard c term, sc', t', h => by
      rw [visitAST] at h
      split at h
      · exact absurd h (by simp)
      · rename_i sc2 a' heq
        simp only [Except.ok.injEq, Prod.mk.injEq] at h
        obtain ⟨rfl, rfl⟩ := h
        have := visit_scratch_spec mode sc term sc2 a' heq
        simpa [varsOf, hasTheoryAtom] using this
  | mode, sc, .Function loc n args ext, sc', t', h => by
      rw [visitAST] at h
      split at h
      · exact absurd h (by simp)
      · rename_i sc2 args' heq
        simp only [Except.ok.injEq, Prod.mk.injEq] at h
        obtain ⟨rfl, rfl⟩ := h
        have := visit_scratch_spec_list mode sc args sc2 args' heq
        simpa [varsOf, hasTheoryAtom] using this
  | mode, sc, .ConditionalLiteral loc lit cond, sc', t', h => by
      rw [visitAST] at h
      split at h
      · exact absurd h (by simp)
      · rename_i sc2 lit' heq1
        split at h
        · exact absurd h (by simp)
        · rename_i sc3 cond' heq2
          simp only [Except.ok.injEq, Prod.mk.injEq] at h
          obtain ⟨rfl, rfl⟩ := h
          have h1 := visit_scratch_spec mode sc lit sc2 lit' heq1
          have h2 := visit_scratch_spec_list mode sc2 cond sc3 cond' heq2
          refine ⟨?_, ?_, ?_⟩
          · rw [h2.1, h1.1, varsOf, insertNew, insertNew, insertNew, List.foldl_append]
          · intro ha
            have e2 := h2.2.1 ha
            have e1 := h1.2.1 e2.1
            simp_all
          · intro hta
            simp [hasTheoryAtom] at hta
            rw [h2.2.2 hta.2, h1.2.2 hta.1]
  | mode, sc, .Aggregate loc lg elems rg, sc', t', h => by
      rw [visitAST] at h
      split at h
      · exact absurd h (by simp)
      · rename_i sc2 lg' heq1
        split at h
        · exact absurd h (by simp)
        · rename_i sc3 elems' heq2
          split at h
          · exact absurd h (by simp)
          · rename_i sc4 rg' heq3
            simp only [Except.ok.injEq, Prod.mk.injEq] at h
            obtain ⟨rfl, rfl⟩ := h
            have h1 := visit_scratch_spec_opt mode sc lg sc2 lg' heq1
            have h2 := visit_scratch_spec_list mode sc2 elems sc3 elems' heq2
            have h3 := visit_scratch_spec_opt mode sc3 rg sc4 rg' heq3
            refine ⟨?_, ?_, ?_⟩
            · rw [h3.1, h2.1, h1.1, varsOf, insertNew, insertNew, insertNew, insertNew,
                List.foldl_append, List.foldl_append]
            · intro ha
              have e3 := h3.2.1 ha
              have e2 := h2.2.1 e3.1
              have e1 := h1.2.1 e2.1
              simp_all
            · intro hta
              simp [hasTheoryAtom] at hta
              rw [h3.2.2 hta.2, h2.2.2 hta.1.2, h1.2.2 hta.1.1]
  | mode, sc, .Rule loc hd bd, sc', t', h => by
      rw [visitAST] at h
      exact absurd h (by simp)
  | mode, sc, .Minimize loc w p tm bd, sc', t', h => by
      rw [visitAST] at h
      exact absurd h (by simp)

theorem visit_scratch_spec_list : ∀ (mode : Mode) (sc : Scratch) (ts : List AST)
    (sc' : Scratch) (ts' : List AST), visitList mode sc ts = .ok (sc', ts') →
    (sc'.global_variables = insertNew sc.global_variables (varsOfList ts)) ∧
    (sc'.weight = .alpha → sc.weight = .alpha ∧ sc'.theory_type = sc.theory_type) ∧
    (hasTheoryAtomList ts = false → sc'.weight = sc.weight)
  | mode, sc, [], sc', ts', h => by
      rw [visitList] at h
      simp only [Except.ok.injEq, Prod.mk.injEq] at h
      obtain ⟨rfl, rfl⟩ := h
      simp [insertNew, varsOfList, hasTheoryAtomList]
  | mode, sc, x :: xs, sc', ts', h => by
      rw [visitList] at h
      split at h
      · exact absurd h (by simp)
      · rename_i sc2 x' heq1
        split at h
        · exact absurd h (by simp)
        · rename_i sc3 xs' heq2
          simp only [Except.ok.injEq, Prod.mk.injEq] at h
          obtain ⟨rfl, rfl⟩ := h
          have h1 := visit_scratch_spec mode sc x sc2 x' heq1
          have h2 := visit_scratch_spec_list mode sc2 xs sc3 xs' heq2
          refine ⟨?_, ?_, ?_⟩
          · rw [h2.1, h1.1, varsOfList, insertNew, insertNew, insertNew, List.foldl_append]
          · intro ha
            have e2 := h2.2.1 ha
            have e1 := h1.2.1 e2.1
            simp_all
          · intro hta
            simp [hasTheoryAtomList] at hta
            rw [h2.2.2 hta.2, h1.2.2 hta.1]

theorem visit_scratch_spec_opt : ∀ (mode : Mode) (sc : Scratch) (t? : Option AST)
    (sc' : Scratch) (t?' : Option AST), visitOpt mode sc t? = .ok (sc', t?') →
    (sc'.global_variables = insertNew sc.global_variables (varsOfOpt t?)) ∧
    (sc'.weight = .alpha → sc.weight = .alpha ∧ sc'.theory_type = sc.theory_type) ∧
    (hasTheoryAtomOpt t? = false → sc'.weight = sc.weight)
  | mode, sc, none, sc', t?', h => by
      rw [visitOpt] at h
      simp only [Except.ok.injEq, Prod.mk.injEq] at h
      obtain ⟨rfl, rfl⟩ := h
      simp [insertNew, varsOfOpt, hasTheoryAtomOpt]
  | mode, sc, some t, sc', t?', h => by
      rw [visitOpt] at h
      split at h
      · exact absurd h (by simp)
      · rename_i sc2 a' heq
        simp only [Except.ok.injEq, Prod.mk.injEq] at h
        obtain ⟨rfl, rfl⟩ := h
        have := visit_scratch_spec mode sc t sc2 a' heq
        simpa [varsOfOpt, hasTheoryAtomOpt] using this

end

/-- pyEq transfers membership tests. -/
theorem pyEq_strip (a b : AST) : AST.pyEq a b = true ↔ a.stripLoc = b.stripLoc := by
  simp [AST.pyEq]

theorem insertNew_eq_dedup (l : List AST) : ∀ acc : List AST,
    insertNew acc l =
      acc ++ (dedupKeepFirst l).filter (fun v => !acc.any (fun g => AST.pyEq g v)) := by
  induction l with
  | nil => intro acc; simp [insertNew, dedupKeepFirst]
  | cons x xs ih =>
    intro acc
    have hstep : insertNew acc (x :: xs) =
        insertNew (if acc.any (fun g => AST.pyEq g x) then acc else acc ++ [x]) xs := by
      simp [insertNew]
    by_cases hx : acc.any (fun g => AST.pyEq g x) = true
    · rw [hstep, if_pos hx, ih]
      have hfe : (dedupKeepFirst xs).filter (fun v => !acc.any (fun g => AST.pyEq g v)) =
          ((dedupKeepFirst xs).filter (fun y => !AST.pyEq y x)).filter
            (fun v => !acc.any (fun g => AST.pyEq g v)) := by
        rw [List.filter_filter]
        refine (List.filter_congr ?_)
        intro y _
        rcases hy : acc.any (fun g => AST.pyEq g y) with _ | _
        · -- y not pyEq-member of acc: then y is not pyEq x either
          simp only [hy, Bool.not_false, Bool.and_true]
          rcases hyx : AST.pyEq y x with _ | _
          · simp
          · exfalso
            simp only [List.any_eq_true] at hx
            obtain ⟨g, hg, hgx⟩ := hx
            have h1 := (pyEq_strip g x).mp hgx
            have h2 := (pyEq_strip y x).mp hyx
            have : AST.pyEq g y = true := (pyEq_strip g y).mpr (h1.trans h2.symm)
            have : acc.any (fun g => AST.pyEq g y) = true :=
              List.any_eq_true.mpr ⟨g, hg, this⟩
            simp [this] at hy
        · simp [hy]
      rw [dedupKeepFirst, List.filter_cons]
      simp only [hx, Bool.not_true]
      rw [← hfe]
      simp
    · rw [hstep, if_neg hx, ih]
      rw [dedupKeepFirst, List.filter_cons]
      have hxf : (acc.any fun g => AST.pyEq g x) = false := by
        simpa using hx
      simp only [hxf, Bool.not_false, if_pos]
      have hfe : (dedupKeepFirst xs).filter
            (fun v => !(acc ++ [x]).any (fun g => AST.pyEq g v)) =
          ((dedupKeepFirst xs).filter (fun y => !AST.pyEq y x)).filter
            (fun v => !acc.any (fun g => AST.pyEq g v)) := by
        rw [List.filter_filter]
        refine (List.filter_congr ?_)
        intro y _
        simp only [List.any_append, List.any_cons, List.any_nil, Bool.or_false,
          Bool.not_or]
        have : AST.pyEq x y = AST.pyEq y x := by
          rcases h1 : AST.pyEq x y with _ | _ <;> rcases h2 : AST.pyEq y x with _ | _ <;>
            first
              | rfl
              | (exfalso
                 first
                   | exact absurd ((pyEq_strip y x).mpr ((pyEq_strip x y).mp h1).symm)
                       (by simp [h2])
                   | exact absurd ((pyEq_strip x y).mpr ((pyEq_strip y x).mp h2).symm)
                       (by simp [h1]))
        rw [this]
      rw [hfe, List.append_assoc]
      simp

theorem insertNew_nil_eq_dedup (l : List AST) : insertNew [] l = dedupKeepFirst l := by
  rw [insertNew_eq_dedup]
  simp

/-- C7: every distinct variable encountered during a rule's head/body
traversal is appended to `global_variables` exactly once, in order of
first occurrence, with membership tested by clingo value equality, and
`visit_Variable` returns the node unchanged. -/
theorem visit_Variable_collects (mode : Mode) :
    (∀ (sc : Scratch) (v : AST), (visit_Variable sc v).2 = v) ∧
    (∀ (head : AST) (body : List AST) (sc1 sc2 : Scratch) (head' : AST) (body' : List AST),
      visitAST mode initial_scratch head = .ok (sc1, head') →
      visitList mode sc1 body = .ok (sc2, body') →
      sc2.global_variables = dedupKeepFirst (varsOf head ++ varsOfList body)) := by
  constructor
  · intro sc v
    unfold visit_Variable
    split <;> rfl
  · intro head body sc1 sc2 head' body' hhv hbv
    have h1 := (visit_scratch_spec mode initial_scratch head sc1 head' hhv).1
    have h2 := (visit_scratch_spec_list mode sc1 body sc2 body' hbv).1
    rw [h2, h1]
    show insertNew (insertNew initial_scratch.global_variables (varsOf head))
      (varsOfList body) = _
    rw [insertNew, insertNew, ← List.foldl_append]
    exact insertNew_nil_eq_dedup (varsOf head ++ varsOfList body)

/-- Witness for C7: the rule `p(X) :- q(X)` collects `X` once. -/
theorem visit_Variable_collects_witness :
    ((visit_Variable initial_scratch (.Variable 7 "X")).2 = .Variable 7 "X") ∧
    (({ weight := .alpha, theory_type := "", global_variables := [AST.Variable 1 "X"] }
        : Scratch).global_variables =
      dedupKeepFirst
        (varsOf (.Literal 1 .NoSign (.SymbolicAtom (.Function 1 "p" [.Variable 1 "X"] false))) ++
         varsOfList [.Literal 2 .NoSign (.SymbolicAtom (.Function 2 "q" [.Variable 2 "X"] false))])) :=
  ⟨(visit_Variable_collects ⟨false, false, false, 0⟩).1 initial_scratch (.Variable 7 "X"),
   (visit_Variable_collects ⟨false, false, false, 0⟩).2
     (.Literal 1 .NoSign (.SymbolicAtom (.Function 1 "p" [.Variable 1 "X"] false)))
     [.Literal 2 .NoSign (.SymbolicAtom (.Function 2 "q" [.Variable 2 "X"] false))]
     { weight := .alpha, theory_type := "", global_variables := [AST.Variable 1 "X"] }
     { weight := .alpha, theory_type := "", global_variables := [AST.Variable 1 "X"] }
     (.Literal 1 .NoSign (.SymbolicAtom (.Function 1 "p" [.Variable 1 "X"] false)))
     [.Literal 2 .NoSign (.SymbolicAtom (.Function 2 "q" [.Variable 2 "X"] false))]
     (by decide) (by decide)⟩

/-- C6 (amended): for every rule with a traversal in which no weight is
recorded (weight remains the alpha sentinel) and hard-rule translation
disabled, and which is not an annotation-free fact (those return before
the traversal), `visit_Rule` returns the original rule unchanged, adds
nothing to the program builder, and increments the rule index by
exactly 1. -/
theorem visit_Rule_hard_unchanged (mode : Mode) (plog : Externals) (rule_idx : Nat)
    (location : Loc) (head : AST) (body : List AST) (sc1 sc2 : Scratch)
    (head' : AST) (body' : List AST)
    (hthr : mode.translate_hr = false)
    (hnf : ¬(AST.isTheoryAtomType head = false ∧ body = []))
    (hhv : visitAST mode initial_scratch head = .ok (sc1, head'))
    (hbv : visitList mode sc1 body = .ok (sc2, body'))
    (halpha : sc2.weight = WeightVal.alpha) :
    visit_Rule mode plog rule_idx (.Rule location head body) =
      .ok { rule_idx := rule_idx + 1, added := [], result := .Rule location head body } := by
  have h2 := (visit_scratch_spec_list mode sc1 body sc2 body' hbv).2.1 halpha
  have h1 := (visit_scratch_spec mode initial_scratch head sc1 head' hhv).2.1 h2.1
  have htt : sc2.theory_type = "" := by
    rw [h2.2, h1.2]
    rfl
  rw [visit_Rule]
  rw [if_neg hnf]
  simp only [hhv, hbv]
  simp [htt, halpha, hthr]

/-- Counterexample for C6 as stated: a fact (`a.`) is a rule where no
weight annotation is found, yet `visit_Rule` returns it without
incrementing the rule index. -/
theorem visit_Rule_fact_cx :
    visit_Rule ⟨false, false, false, 0⟩ plog0 0
        (.Rule 0 (.Literal 1 .NoSign (.SymbolicAtom (.Function 1 "a" [] false))) []) =
      .ok { rule_idx := 0, added := [],
            result := .Rule 0 (.Literal 1 .NoSign (.SymbolicAtom (.Function 1 "a" [] false))) [] } ∧
    (0 : Nat) ≠ 0 + 1 := by
  constructor
  · decide
  · decide

/-- Witness for C6: the hard rule `a :- b.` with hard-rule translation
disabled passes through unchanged with the index bumped once. -/
theorem visit_Rule_hard_unchanged_witness :
    visit_Rule ⟨false, false, false, 0⟩ plog0 3
        (.Rule 0 (.Literal 1 .NoSign (.SymbolicAtom (.Function 1 "a" [] false)))
          [.Literal 2 .NoSign (.SymbolicAtom (.Function 2 "b" [] false))]) =
      .ok { rule_idx := 4, added := [],
            result := .Rule 0 (.Literal 1 .NoSign (.SymbolicAtom (.Function 1 "a" [] false)))
              [.Literal 2 .NoSign (.SymbolicAtom (.Function 2 "b" [] false))] } :=
  visit_Rule_hard_unchanged ⟨false, false, false, 0⟩ plog0 3 0
    (.Literal 1 .NoSign (.SymbolicAtom (.Function 1 "a" [] false)))
    [.Literal 2 .NoSign (.SymbolicAtom (.Function 2 "b" [] false))]
    initial_scratch initial_scratch
    (.Literal 1 .NoSign (.SymbolicAtom (.Function 1 "a" [] false)))
    [.Literal 2 .NoSign (.SymbolicAtom (.Function 2 "b" [] false))]
    rfl (by decide) (by decide) (by decide) rfl

/-- C4: a weighted rule whose visited head is an aggregate with neither
guard is returned unchanged as a single rule by the encoder — no weak
constraint, no auxiliary rule, in any encoding mode — and `visit_Rule`
emits nothing to the builder and increments the rule index exactly
once. -/
theorem visit_Rule_unbounded_aggregate (mode : Mode) (plog : Externals) (rule_idx : Nat)
    (location aloc : Loc) (elems : List AST) (head : AST) (body : List AST)
    (sc1 sc2 : Scratch) (body' : List AST)
    (hhv : visitAST mode initial_scratch head = .ok (sc1, .Aggregate aloc none elems none))
    (hbv : visitList mode sc1 body = .ok (sc2, body'))
    (hnf : ¬(AST.isTheoryAtomType head = false ∧ body = []))
    (htt : sc2.theory_type ∉ (["query", "evidence", "random", "pr", "obs", "do"] : List String))
    (hw : ¬(sc2.weight = WeightVal.alpha ∧ mode.translate_hr = false))
    (hwne : sc2.weight ≠ WeightVal.empty) :
    (convert_rule mode rule_idx sc2.weight sc2.global_variables
        (.Aggregate aloc none elems none) body' =
      .ok [.Rule aloc (.Aggregate aloc none elems none) body']) ∧
    visit_Rule mode plog rule_idx (.Rule location head body) =
      .ok { rule_idx := rule_idx + 1, added := [],
            result := .Rule aloc (.Aggregate aloc none elems none) body' } := by
  simp only [List.mem_cons, List.mem_singleton] at htt
  push_neg at htt
  obtain ⟨hq, he, hr, hp, ho, hd⟩ := htt
  have hcv : convert_rule mode rule_idx sc2.weight sc2.global_variables
      (.Aggregate aloc none elems none) body' =
      .ok [.Rule aloc (.Aggregate aloc none elems none) body'] := by
    rw [convert_rule]
    rcases hws : sc2.weight with _ | _ | s
    · simp [AST.location?, get_constraint_parameters]
    · exact absurd hws hwne
    · simp [AST.location?, get_constraint_parameters]
  refine ⟨hcv, ?_⟩
  rw [visit_Rule]
  rw [if_neg hnf]
  simp only [hhv, hbv]
  simp [hq, he, hr, hp, ho, hd, hw, hcv]

/-- C5: a rule carrying an evidence annotation becomes a single
integrity constraint whose head is the positive boolean-false literal
and whose only body literal wraps the evidenced atom — negated when the
annotation has one argument or a second argument printing differently
from `false`, positive when the second argument prints as `false` —
with nothing pushed to the builder and the rule index untouched. -/
theorem visit_Rule_evidence (mode : Mode) (plog : Externals) (rule_idx : Nat)
    (location tloc floc : Loc) (ev : AST) (rest : List AST) (fext : Bool)
    (telems : List AST) (tguard : Option AST) (body : List AST)
    (sc2 : Scratch) (body' : List AST)
    (hbv : visitList mode
        { weight := .empty, theory_type := "evidence", global_variables := [] } body =
      .ok (sc2, body'))
    (htt : sc2.theory_type = "evidence") :
    visit_Rule mode plog rule_idx
        (.Rule location
          (.TheoryAtom tloc (.Function floc "evidence" (ev :: rest) fext) telems tguard) body) =
      .ok { rule_idx := rule_idx, added := [],
            result := .Rule location (.Literal tloc Sign.NoSign (.BooleanConstant false))
              [.Literal tloc
                (match rest with
                 | [] => Sign.Negation
                 | arg2 :: _ => if AST.toStr arg2 = "false" then Sign.NoSign else Sign.Negation)
                (.SymbolicAtom ev)] } := by
  rw [visit_Rule]
  rw [if_neg (by simp [AST.isTheoryAtomType])]
  have hta : visitAST mode initial_scratch
      (.TheoryAtom tloc (.Function floc "evidence" (ev :: rest) fext) telems tguard) =
      .ok ({ weight := .empty, theory_type := "evidence", global_variables := [] },
        .Literal tloc
          (match rest with
           | [] => Sign.Negation
           | arg2 :: _ => if AST.toStr arg2 = "false" then Sign.NoSign else Sign.Negation)
          (.SymbolicAtom ev)) := by
    cases rest <;> rfl
  simp only [hta, hbv]
  simp [htt, AST.location?]

/-- Witness for C5: `&evidence(p).` and `&evidence(p, false).`. -/
theorem visit_Rule_evidence_witness :
    (visit_Rule ⟨false, false, false, 0⟩ plog0 7
        (.Rule 0 (.TheoryAtom 5 (.Function 5 "evidence" [.Function 5 "p" [] false] false)
          [] none) []) =
      .ok { rule_idx := 7, added := [],
            result := .Rule 0 (.Literal 5 Sign.NoSign (.BooleanConstant false))
              [.Literal 5 Sign.Negation (.SymbolicAtom (.Function 5 "p" [] false))] }) ∧
    (visit_Rule ⟨false, false, false, 0⟩ plog0 7
        (.Rule 0 (.TheoryAtom 5 (.Function 5 "evidence"
          [.Function 5 "p" [] false, .Function 5 "false" [] false] false) [] none) []) =
      .ok { rule_idx := 7, added := [],
            result := .Rule 0 (.Literal 5 Sign.NoSign (.BooleanConstant false))
              [.Literal 5 Sign.NoSign (.SymbolicAtom (.Function 5 "p" [] false))] }) :=
  ⟨visit_Rule_evidence ⟨false, false, false, 0⟩ plog0 7 0 5 5 (.Function 5 "p" [] false)
      [] false [] none []
      { weight := .empty, theory_type := "evidence", global_variables := [] } [] rfl rfl,
   visit_Rule_evidence ⟨false, false, false, 0⟩ plog0 7 0 5 5 (.Function 5 "p" [] false)
      [.Function 5 "false" [] false] false [] none []
      { weight := .empty, theory_type := "evidence", global_variables := [] } [] rfl rfl⟩

/-- Witness for C4: the weighted unconstrained choice
`2 : {a} :- b.`. -/
theorem visit_Rule_unbounded_aggregate_witness :
    (convert_rule ⟨false, false, false, 0⟩ 0 (.sym (.scaledWeight (.int 2) 0)) []
        (.Aggregate 1 none
          [.ConditionalLiteral 1
            (.Literal 1 .NoSign (.SymbolicAtom (.Function 1 "a" [] false))) []] none)
        [.Literal 2 .NoSign (.SymbolicAtom (.Function 2 "b" [] false)),
         .Literal 3 .NoSign (.BooleanConstant true)] =
      .ok [.Rule 1 (.Aggregate 1 none
            [.ConditionalLiteral 1
              (.Literal 1 .NoSign (.SymbolicAtom (.Function 1 "a" [] false))) []] none)
            [.Literal 2 .NoSign (.SymbolicAtom (.Function 2 "b" [] false)),
             .Literal 3 .NoSign (.BooleanConstant true)]]) ∧
    visit_Rule ⟨false, false, false, 0⟩ plog0 0
        (.Rule 0
          (.Aggregate 1 none
            [.ConditionalLiteral 1
              (.Literal 1 .NoSign (.SymbolicAtom (.Function 1 "a" [] false))) []] none)
          [.Literal 2 .NoSign (.SymbolicAtom (.Function 2 "b" [] false)),
           .Literal 3 .NoSign (.TheoryAtom 3
             (.Function 3 "weight" [.SymbolicTerm 3 (.num 2)] false) [] none)]) =
      .ok { rule_idx := 1, added := [],
            result := .Rule 1 (.Aggregate 1 none
              [.ConditionalLiteral 1
                (.Literal 1 .NoSign (.SymbolicAtom (.Function 1 "a" [] false))) []] none)
              [.Literal 2 .NoSign (.SymbolicAtom (.Function 2 "b" [] false)),
               .Literal 3 .NoSign (.BooleanConstant true)] } :=
  visit_Rule_unbounded_aggregate ⟨false, false, false, 0⟩ plog0 0 0 1
    [.ConditionalLiteral 1
      (.Literal 1 .NoSign (.SymbolicAtom (.Function 1 "a" [] false))) []]
    (.Aggregate 1 none
      [.ConditionalLiteral 1
        (.Literal 1 .NoSign (.SymbolicAtom (.Function 1 "a" [] false))) []] none)
    [.Literal 2 .NoSign (.SymbolicAtom (.Function 2 "b" [] false)),
     .Literal 3 .NoSign (.TheoryAtom 3
       (.Function 3 "weight" [.SymbolicTerm 3 (.num 2)] false) [] none)]
    initial_scratch
    { weight := .sym (.scaledWeight (.int 2) 0), theory_type := "", global_variables := [] }
    [.Literal 2 .NoSign (.SymbolicAtom (.Function 2 "b" [] false)),
     .Literal 3 .NoSign (.BooleanConstant true)]
    (by decide) (by decide) (by decide) (by decide) (by decide) (by decide)

/-- C8 (amended): a weight-bearing annotation (`weight`, `log`,
`problog`) whose string argument is not a parseable numeric expression
makes the visit fail fatally with the propagated evaluation error — no
rule is returned or emitted for that rule — but the error is the raw
evaluation exception, not an "invalid weight expression" diagnostic
identifying the rule and annotation. -/
theorem visit_TheoryAtom_bad_weight (mode : Mode) (plog : Externals) (rule_idx : Nat) :
    (∀ (sc : Scratch) (tloc floc sloc : Loc) (name s : String)
        (fext : Bool) (telems : List AST) (tguard : Option AST),
      (name = "weight" ∨ name = "log" ∨ name = "problog") →
      numericExprOk s = false →
      visit_TheoryAtom mode sc
          (.TheoryAtom tloc (.Function floc name [.SymbolicTerm sloc (.str s)] fext)
            telems tguard) =
        .error (.evalError s)) ∧
    (∀ (location : Loc) (head : AST) (sc1 : Scratch) (head' : AST)
        (bloc tloc floc sloc : Loc) (name s : String) (bsign : Sign) (fext : Bool)
        (telems : List AST) (tguard : Option AST) (rest : List AST),
      visitAST mode initial_scratch head = .ok (sc1, head') →
      (name = "weight" ∨ name = "log" ∨ name = "problog") →
      numericExprOk s = false →
      visit_Rule mode plog rule_idx
          (.Rule location head
            (.Literal bloc bsign
              (.TheoryAtom tloc (.Function floc name [.SymbolicTerm sloc (.str s)] fext)
                telems tguard) :: rest)) =
        .error (.evalError s)) ∧
    (∀ s : String, (PyErr.evalError s).isInvalidWeightExpr = false) := by
  have part1 : ∀ (sc : Scratch) (tloc floc sloc : Loc) (name s : String)
      (fext : Bool) (telems : List AST) (tguard : Option AST),
      (name = "weight" ∨ name = "log" ∨ name = "problog") →
      numericExprOk s = false →
      visit_TheoryAtom mode sc
          (.TheoryAtom tloc (.Function floc name [.SymbolicTerm sloc (.str s)] fext)
            telems tguard) =
        .error (.evalError s) := by
    intro sc tloc floc sloc name s fext telems tguard hname hnum
    rcases hname with rfl | rfl | rfl <;> simp [visit_TheoryAtom, hnum]
  refine ⟨part1, ?_, fun s => rfl⟩
  intro location head sc1 head' bloc tloc floc sloc name s bsign fext telems tguard rest
    hhv hname hnum
  have hv : visitAST mode sc1
      (.TheoryAtom tloc (.Function floc name [.SymbolicTerm sloc (.str s)] fext)
        telems tguard) =
      visit_TheoryAtom mode sc1
        (.TheoryAtom tloc (.Function floc name [.SymbolicTerm sloc (.str s)] fext)
          telems tguard) := by
    rw [visitAST]
  rw [visit_Rule]
  rw [if_neg (by simp)]
  simp only [hhv]
  rw [visitList, visitAST]
  rw [hv, part1 sc1 tloc floc sloc name s fext telems tguard hname hnum]

/-- Counterexample for C8 as stated: `a :- &weight("foo").` fails with
the raw evaluation error, which does not identify the rule and the
annotation as an invalid-weight-expression diagnostic. -/
theorem visit_Rule_bad_weight_cx :
    visit_Rule ⟨false, false, false, 0⟩ plog0 0
        (.Rule 0 (.Literal 1 .NoSign (.SymbolicAtom (.Function 1 "a" [] false)))
          [.Literal 3 .NoSign (.TheoryAtom 3
            (.Function 3 "weight" [.SymbolicTerm 3 (.str "foo")] false) [] none)]) =
      .error (.evalError "foo") ∧
    (PyErr.evalError "foo").isInvalidWeightExpr = false := by
  constructor
  · decide
  · decide

/-- Witness for C8: `a :- &log("2x").` fails with the evaluation
error. -/
theorem visit_TheoryAtom_bad_weight_witness :
    visit_Rule ⟨false, false, false, 0⟩ plog0 2
        (.Rule 0 (.Literal 1 .NoSign (.SymbolicAtom (.Function 1 "a" [] false)))
          [.Literal 3 .NoSign (.TheoryAtom 3
            (.Function 3 "log" [.SymbolicTerm 3 (.str "2x")] false) [] none)]) =
      .error (.evalError "2x") :=
  (visit_TheoryAtom_bad_weight ⟨false, false, false, 0⟩ plog0 2).2.1 0
    (.Literal 1 .NoSign (.SymbolicAtom (.Function 1 "a" [] false)))
    initial_scratch
    (.Literal 1 .NoSign (.SymbolicAtom (.Function 1 "a" [] false)))
    3 3 3 3 "log" "2x" .NoSign false [] none [] (by decide) (Or.inr (Or.inl rfl)) (by decide)

/-- C9 (amended): the per-rule weight starts as the alpha sentinel;
visit steps on nodes containing no theory atom never change it; every
theory-atom visit overwrites it — to the empty sentinel for the
recognized non-weight annotations, and to a computed scaled weight
exactly when the annotation is weight-bearing (`weight`, `log`,
`problog`). -/
theorem visit_TheoryAtom_weight_discipline (mode : Mode) :
    initial_scratch.weight = WeightVal.alpha ∧
    (∀ (sc : Scratch) (t : AST) (sc' : Scratch) (t' : AST),
      hasTheoryAtom t = false → visitAST mode sc t = .ok (sc', t') →
      sc'.weight = sc.weight) ∧
    (∀ (sc : Scratch) (tloc floc : Loc) (name : String) (args : List AST) (fext : Bool)
        (telems : List AST) (tguard : Option AST) (sc' : Scratch) (t' : AST),
      visit_TheoryAtom mode sc
        (.TheoryAtom tloc (.Function floc name args fext) telems tguard) = .ok (sc', t') →
      ((name ∈ (["query", "random", "pr", "obs", "do", "evidence"] : List String) ∧
          sc'.weight = .empty) ∨
       (name ∈ (["weight", "log", "problog"] : List String) ∧
          ∃ raw, sc'.weight = .sym (calculate_weight raw mode.power_of_ten)))) := by
  refine ⟨rfl, ?_, ?_⟩
  · intro sc t sc' t' hta hv
    exact (visit_scratch_spec mode sc t sc' t' hv).2.2 hta
  · intro sc tloc floc name args fext telems tguard sc' t' h
    simp only [visit_TheoryAtom] at h
    repeat' split at h
    all_goals try simp only [Except.ok.injEq, Prod.mk.injEq] at h
    all_goals
      first
        | (simp at h
           done)
        | (obtain ⟨h1, h2⟩ := h
           subst h1
           first
             | (left
                refine ⟨?_, rfl⟩
                simp only [List.mem_cons, List.not_mem_nil, or_false]
                tauto)
             | (right
                rename_i heq
                refine ⟨?_, ⟨_, rfl⟩⟩
                by_contra hmem
                simp only [List.mem_cons, List.not_mem_nil, or_false, not_or] at hmem
                obtain ⟨hw, hl, hp⟩ := hmem
                rw [if_neg hw, if_neg hl, if_neg hp] at heq
                exact absurd heq (by simp)))

/-- Counterexample for C9 as stated: visiting a `query` annotation — not
a weight-bearing one — overwrites the weight from the alpha sentinel to
the empty sentinel. -/
theorem visit_TheoryAtom_query_resets_weight_cx :
    visit_TheoryAtom ⟨false, false, false, 0⟩ initial_scratch
        (.TheoryAtom 4 (.Function 4 "query" [.Function 4 "a" [] false] false) [] none) =
      .ok ({ weight := WeightVal.empty, theory_type := "query", global_variables := [] },
        .TheoryAtom 4 (.Function 4 "query" [.Function 4 "a" [] false] false) [] none) ∧
    WeightVal.empty ≠ WeightVal.alpha ∧
    initial_scratch.weight = WeightVal.alpha := by
  refine ⟨?_, ?_, rfl⟩
  · decide
  · decide

/-- Witness for C9: visiting `&query(a)` from the initial scratch state
leaves the weight at the empty sentinel, a recognized non-weight
annotation. -/
theorem visit_TheoryAtom_weight_discipline_witness :
    ("query" ∈ (["query", "random", "pr", "obs", "do", "evidence"] : List String) ∧
      ({ weight := WeightVal.empty, theory_type := "query", global_variables := [] }
        : Scratch).weight = .empty) ∨
    ("query" ∈ (["weight", "log", "problog"] : List String) ∧
      ∃ raw, ({ weight := WeightVal.empty, theory_type := "query", global_variables := [] }
        : Scratch).weight = .sym (calculate_weight raw (0 : Int))) :=
  (visit_TheoryAtom_weight_discipline ⟨false, false, false, 0⟩).2.2
    initial_scratch 4 4 "query" [.Function 4 "a" [] false] false [] none
    { weight := WeightVal.empty, theory_type := "query", global_variables := [] }
    (.TheoryAtom 4 (.Function 4 "query" [.Function 4 "a" [] false] false) [] none)
    (by decide)


/-- Witness for C10: the soft rule `2 : a :- b.`, encoded with the unsat
encoding, is unchanged by enabling the two-solve-calls flag. -/
theorem convert_rule_unsat_mode_independent_witness :
    convert_rule ⟨false, true, true, 0⟩ 0 (.sym (.num 2)) []
        (.Literal 1 .NoSign (.SymbolicAtom (.Function 1 "a" [] false)))
        [.Literal 2 .NoSign (.SymbolicAtom (.Function 2 "b" [] false))] =
      convert_rule ⟨false, true, false, 0⟩ 0 (.sym (.num 2)) []
        (.Literal 1 .NoSign (.SymbolicAtom (.Function 1 "a" [] false)))
        [.Literal 2 .NoSign (.SymbolicAtom (.Function 2 "b" [] false))] :=
  (convert_rule_unsat_mode_independent ⟨false, true, false, 0⟩ true 0 (.sym (.num 2)) []
    (.Literal 1 .NoSign (.SymbolicAtom (.Function 1 "a" [] false)))
    [.Literal 2 .NoSign (.SymbolicAtom (.Function 2 "b" [] false))] rfl).1

end LPMLN
